import Mathlib

/-!
Shallow embedding of the virtual-machine core of catsanzsh/emuai-1.0.

Two historical variants exist in the repository and both are embedded:
namespace EMAUI models src/EMAUI0.2.py and namespace Flames models
src/FlamesVM64.py.  Python exceptions are modelled with an explicit
error type; in-place mutation is modelled by explicit state passing.
Byte buffers and register files are modelled as functions Nat -> Nat,
mutated through the pointwise updater upd.  numpy uint32 wraparound is
modelled by explicit % 2^32 and the uint16 framebuffer store by % 2^16.
-/

/-- Errors raised by the Python code (MemoryError, ValueError, struct.error,
the numpy broadcast ValueError, and the TypeError from calling None). -/
inductive Err where
  | unmapped (addr : Nat)
  | writeProtected
  | shortSpan
  | invalidAccess (addr : Nat)
  | unknownOpcode (op : Nat)
  | noneNotCallable
  deriving DecidableEq

/-- Pointwise update of a byte buffer or register file. -/
def upd (f : Nat → Nat) (i v : Nat) : Nat → Nat :=
  fun j => if j = i then v else f j

/-- Big-endian reassembly of four bytes, as struct.unpack with format >I does. -/
def bytesToWord (b0 b1 b2 b3 : Nat) : Nat :=
  b0 * 2 ^ 24 + b1 * 2 ^ 16 + b2 * 2 ^ 8 + b3

/-- Store the four big-endian bytes of a 32-bit value at offset, offset+1,
offset+2, offset+3, as the slice assignment of struct.pack with format >I does. -/
def storeWordBytes (f : Nat → Nat) (offset value : Nat) : Nat → Nat :=
  upd (upd (upd (upd f offset (value / 2 ^ 24 % 256))
    (offset + 1) (value / 2 ^ 16 % 256))
    (offset + 2) (value / 2 ^ 8 % 256))
    (offset + 3) (value % 256)

theorem upd_same (f : Nat → Nat) (i v : Nat) : upd f i v i = v := by
  simp [upd]

theorem upd_ne (f : Nat → Nat) {i j : Nat} (v : Nat) (h : j ≠ i) : upd f i v j = f j := by
  simp [upd, h]

theorem storeWordBytes_at0 (f : Nat → Nat) (a v : Nat) :
    storeWordBytes f a v a = v / 2 ^ 24 % 256 := by
  unfold storeWordBytes
  rw [upd_ne _ _ (by omega), upd_ne _ _ (by omega), upd_ne _ _ (by omega), upd_same]

theorem storeWordBytes_at1 (f : Nat → Nat) (a v : Nat) :
    storeWordBytes f a v (a + 1) = v / 2 ^ 16 % 256 := by
  unfold storeWordBytes
  rw [upd_ne _ _ (by omega), upd_ne _ _ (by omega), upd_same]

theorem storeWordBytes_at2 (f : Nat → Nat) (a v : Nat) :
    storeWordBytes f a v (a + 2) = v / 2 ^ 8 % 256 := by
  unfold storeWordBytes
  rw [upd_ne _ _ (by omega), upd_same]

theorem storeWordBytes_at3 (f : Nat → Nat) (a v : Nat) :
    storeWordBytes f a v (a + 3) = v % 256 := by
  unfold storeWordBytes
  rw [upd_same]

theorem bytesToWord_storeWordBytes (f : Nat → Nat) (a v : Nat) (hv : v < 2 ^ 32) :
    bytesToWord (storeWordBytes f a v a) (storeWordBytes f a v (a + 1))
      (storeWordBytes f a v (a + 2)) (storeWordBytes f a v (a + 3)) = v := by
  rw [storeWordBytes_at0, storeWordBytes_at1, storeWordBytes_at2, storeWordBytes_at3,
    bytesToWord]
  omega

namespace EMAUI

def RDRAM_SIZE : Nat := 8 * 1024 * 1024

def RDRAM_START : Nat := 0

def RDRAM_END : Nat := RDRAM_START + RDRAM_SIZE - 1

def PIF_ROM_START : Nat := 0x1FC00000

def PIF_ROM_SIZE : Nat := 2048

def PIF_ROM_END : Nat := PIF_ROM_START + PIF_ROM_SIZE - 1

inductive Region where
  | rdram
  | pifRom
  deriving DecidableEq

def regionSize : Region → Nat
  | .rdram => RDRAM_SIZE
  | .pifRom => PIF_ROM_SIZE

/-- Memory state of EMAUI0.2: the two backing buffers plus the read/write
statistics counters, all mutated in place by the Python code. -/
structure Mem where
  rdram : Nat → Nat
  pif_rom : Nat → Nat
  reads : Nat
  writes : Nat

/-- Memory.map_address of EMAUI0.2: resolve an address to a region and offset,
or raise MemoryError for an invalid access. -/
def map_address (address : Nat) : Except Err (Region × Nat) :=
  if RDRAM_START ≤ address ∧ address ≤ RDRAM_END then
    .ok (.rdram, address - RDRAM_START)
  else if PIF_ROM_START ≤ address ∧ address ≤ PIF_ROM_END then
    .ok (.pifRom, address - PIF_ROM_START)
  else
    .error (.unmapped address)

/-- Memory.read_byte of EMAUI0.2.  The reads counter is incremented after a
successful mapping; the state is returned alongside the result because the
Python object is mutated in place even when a later step raises. -/
def read_byte (m : Mem) (address : Nat) : Mem × Except Err Nat :=
  match map_address address with
  | .error e => (m, .error e)
  | .ok (region, offset) =>
    let m' := { m with reads := m.reads + 1 }
    match region with
    | .rdram => (m', .ok (m.rdram offset))
    | .pifRom => (m', .ok (m.pif_rom offset))

/-- Memory.write_byte of EMAUI0.2.  The writes counter is incremented before
the region branch, so a write to the read-only PIF ROM still bumps the counter
and then raises MemoryError.  RDRAM stores value & 0xFF. -/
def write_byte (m : Mem) (address value : Nat) : Mem × Except Err Unit :=
  match map_address address with
  | .error e => (m, .error e)
  | .ok (region, offset) =>
    let m' := { m with writes := m.writes + 1 }
    match region with
    | .rdram => ({ m' with rdram := upd m'.rdram offset (value % 256) }, .ok ())
    | .pifRom => (m', .error .writeProtected)

/-- Memory.read_word of EMAUI0.2.  The reads counter is incremented first;
then the numpy slice buffer[offset:offset+4] is clamped at the region end,
so struct.unpack raises (modelled as shortSpan) when fewer than 4 bytes
remain in the resolved region. -/
def read_word (m : Mem) (address : Nat) : Mem × Except Err Nat :=
  match map_address address with
  | .error e => (m, .error e)
  | .ok (region, offset) =>
    let m' := { m with reads := m.reads + 4 }
    match region with
    | .rdram =>
      if offset + 4 ≤ RDRAM_SIZE then
        (m', .ok (bytesToWord (m.rdram offset) (m.rdram (offset + 1))
          (m.rdram (offset + 2)) (m.rdram (offset + 3))))
      else
        (m', .error .shortSpan)
    | .pifRom =>
      if offset + 4 ≤ PIF_ROM_SIZE then
        (m', .ok (bytesToWord (m.pif_rom offset) (m.pif_rom (offset + 1))
          (m.pif_rom (offset + 2)) (m.pif_rom (offset + 3))))
      else
        (m', .error .shortSpan)

/-- Memory.write_word of EMAUI0.2.  The writes counter is incremented before
the region branch.  An RDRAM store whose 4-byte span crosses the region end
raises the numpy broadcast ValueError (modelled as shortSpan) without storing
anything; a PIF ROM store raises MemoryError (write protection). -/
def write_word (m : Mem) (address value : Nat) : Mem × Except Err Unit :=
  match map_address address with
  | .error e => (m, .error e)
  | .ok (region, offset) =>
    let m' := { m with writes := m.writes + 4 }
    match region with
    | .rdram =>
      if offset + 4 ≤ RDRAM_SIZE then
        ({ m' with rdram := storeWordBytes m'.rdram offset value }, .ok ())
      else
        (m', .error .shortSpan)
    | .pifRom => (m', .error .writeProtected)

def fbWidth : Nat := 640

def fbHeight : Nat := 480

/-- Graphics.draw_rectangle of EMAUI0.2.  The operands come from the numpy
uint32 register file, so x + width and y + height wrap modulo 2^32; the
framebuffer has dtype uint16, so the stored color is reduced modulo 2^16.
The framebuffer is indexed row first: fb row col. -/
def draw_rectangle (x y width height color : Nat) (fb : Nat → Nat → Nat) :
    Nat → Nat → Nat :=
  let x1 := max 0 x
  let y1 := max 0 y
  let x2 := min fbWidth ((x + width) % 2 ^ 32)
  let y2 := min fbHeight ((y + height) % 2 ^ 32)
  if x1 < x2 ∧ y1 < y2 then
    fun row col =>
      if y1 ≤ row ∧ row < y2 ∧ x1 ≤ col ∧ col < x2 then color % 2 ^ 16
      else fb row col
  else fb

/-- The operations Kernel.decode_instruction of EMAUI0.2 can resolve a word
to; each Python closure is represented by the tag plus its captured operands. -/
inductive DecodedOp where
  | add (rd rs rt : Nat)
  | sub (rd rs rt : Nat)
  | addi (rt rs : Nat) (imm : Int)
  | lui (rt : Nat) (imm : Nat)
  | drawRect
  | render
  | halt
  | unknown (opcode : Nat)
  deriving DecidableEq

/-- Sign extension performed inline by Kernel.decode_instruction of EMAUI0.2
for ADDI: if imm & 0x8000 is set then imm -= 0x10000 (a Python int, so the
result can be negative). -/
def sign_extend16 (v : Nat) : Int :=
  if v &&& 0x8000 ≠ 0 then (v : Int) - 0x10000 else (v : Int)

/-- Kernel.decode_instruction of EMAUI0.2.  The Python function returns a
closure for every recognized pattern and an error-raising closure for an
unknown opcode, but for an R-type word (opcode 0) whose funct is neither
0x20 nor 0x22 it falls off the end of the method and returns None, modelled
here as none. -/
def decode_instruction (instruction : Nat) : Option DecodedOp :=
  let opcode := instruction >>> 26
  if opcode = 0 then
    let rs := (instruction >>> 21) &&& 0x1F
    let rt := (instruction >>> 16) &&& 0x1F
    let rd := (instruction >>> 11) &&& 0x1F
    let funct := instruction &&& 0x3F
    if funct = 0x20 then some (.add rd rs rt)
    else if funct = 0x22 then some (.sub rd rs rt)
    else none
  else if opcode = 0x08 then
    let rs := (instruction >>> 21) &&& 0x1F
    let rt := (instruction >>> 16) &&& 0x1F
    some (.addi rt rs (sign_extend16 (instruction &&& 0xFFFF)))
  else if opcode = 0x0F then
    some (.lui ((instruction >>> 16) &&& 0x1F) (instruction &&& 0xFFFF))
  else if opcode = 0x2D then some .drawRect
  else if opcode = 0x2E then some .render
  else if opcode = 0x3F then some .halt
  else some (.unknown opcode)

/-- Kernel state of EMAUI0.2: memory, framebuffer, program counter, the 32
numpy uint32 registers, the running flag and the cycle counter. -/
structure KState where
  mem : Mem
  gfx : Nat → Nat → Nat
  pc : Nat
  registers : Nat → Nat
  running : Bool
  cycles : Nat

/-- Reduction of a signed intermediate to the stored numpy uint32 value. -/
def wrap32Int (z : Int) : Nat := (z % (2 ^ 32 : Int)).toNat

/-- The body of the closure Kernel.decode_instruction builds for each op,
applied to the kernel state.  The unknown-opcode closure raises ValueError.
The render closure only draws to the external canvas and sleeps, so it
leaves the modelled state unchanged. -/
def execute (op : DecodedOp) (s : KState) : KState × Option Err :=
  match op with
  | .add rd rs rt =>
    let value := (s.registers rs + s.registers rt) % 2 ^ 32
    ({ s with registers := upd s.registers rd value }, none)
  | .sub rd rs rt =>
    let value := wrap32Int ((s.registers rs : Int) - (s.registers rt : Int))
    ({ s with registers := upd s.registers rd value }, none)
  | .addi rt rs imm =>
    let value := wrap32Int ((s.registers rs : Int) + imm)
    ({ s with registers := upd s.registers rt value }, none)
  | .lui rt imm =>
    ({ s with registers := upd s.registers rt (imm <<< 16) }, none)
  | .drawRect =>
    let fb := draw_rectangle (s.registers 1) (s.registers 2) (s.registers 3)
      (s.registers 4) (s.registers 5) s.gfx
    ({ s with gfx := fb }, none)
  | .render => (s, none)
  | .halt => ({ s with running := false }, none)
  | .unknown opcode => (s, some (.unknownOpcode opcode))

/-- One iteration of the loop in Kernel.run of EMAUI0.2: fetch_instruction
(which advances pc by 4 and bumps cycles after a successful read), decode,
then call the decoded closure; calling the None returned for an unhandled
R-type word raises TypeError. -/
def stepE (s : KState) : KState × Option Err :=
  match read_word s.mem s.pc with
  | (m', .error e) => ({ s with mem := m' }, some e)
  | (m', .ok instruction) =>
    let s1 := { s with mem := m', pc := s.pc + 4, cycles := s.cycles + 1 }
    match decode_instruction instruction with
    | none => (s1, some .noneNotCallable)
    | some op => execute op s1

/-- Kernel.run of EMAUI0.2, with explicit fuel.  The while loop tests the
running flag before each fetch; the surrounding try/except catches every
exception, reports it, and clears the running flag, so the caller observes
only the final state and the caught reason. -/
def run : Nat → KState → KState × Option Err
  | 0, s => (s, none)
  | fuel + 1, s =>
    if s.running then
      match stepE s with
      | (s', none) => run fuel s'
      | (s', some e) => ({ s' with running := false }, some e)
    else (s, none)

end EMAUI

namespace Flames

/-- Memory of FlamesVM64: a single flat byte buffer of the given size. -/
structure Mem where
  size : Nat
  memory : Nat → Nat

/-- Memory.read_byte of FlamesVM64. -/
def read_byte (m : Mem) (address : Nat) : Except Err Nat :=
  if address < m.size then .ok (m.memory address)
  else .error (.invalidAccess address)

/-- Memory.write_byte of FlamesVM64: stores value & 0xFF. -/
def write_byte (m : Mem) (address value : Nat) : Except Err Mem :=
  if address < m.size then
    .ok { m with memory := upd m.memory address (value % 256) }
  else .error (.invalidAccess address)

/-- Memory.read_word of FlamesVM64: checked with address + 3 < size. -/
def read_word (m : Mem) (address : Nat) : Except Err Nat :=
  if address + 3 < m.size then
    .ok (bytesToWord (m.memory address) (m.memory (address + 1))
      (m.memory (address + 2)) (m.memory (address + 3)))
  else .error (.invalidAccess address)

/-- Memory.write_word of FlamesVM64: checked with address + 3 < size. -/
def write_word (m : Mem) (address value : Nat) : Except Err Mem :=
  if address + 3 < m.size then
    .ok { m with memory := storeWordBytes m.memory address value }
  else .error (.invalidAccess address)

/-- Graphics.draw_pixel of FlamesVM64 over the row-major flat framebuffer. -/
def draw_pixel (x y color : Nat) (fb : Nat → Nat) : Nat → Nat :=
  if x < 640 ∧ y < 480 then upd fb (y * 640 + x) color else fb

/-- Kernel state of FlamesVM64: plain Python ints in the register list, so
no masking happens anywhere. -/
structure KState where
  mem : Mem
  gfx : Nat → Nat
  pc : Nat
  registers : Nat → Nat
  running : Bool

/-- Kernel.execute_instruction of FlamesVM64.  Note: the R-type branch adds
without masking and ignores funct; opcode 1 adds the unsigned immediate to
registers[rs] in place; opcode 2 is the jump; the else branch raises
ValueError. -/
def execute_instruction (instruction : Nat) (s : KState) : Except Err KState :=
  let opcode := instruction >>> 26
  if opcode = 0 then
    let rs := (instruction >>> 21) &&& 0x1F
    let rt := (instruction >>> 16) &&& 0x1F
    let rd := (instruction >>> 11) &&& 0x1F
    .ok { s with registers := upd s.registers rd (s.registers rs + s.registers rt) }
  else if opcode = 1 then
    let rs := (instruction >>> 21) &&& 0x1F
    let imm := instruction &&& 0xFFFF
    .ok { s with registers := upd s.registers rs (s.registers rs + imm) }
  else if opcode = 2 then
    let target := instruction &&& 0x3FFFFFF
    .ok { s with pc := (s.pc &&& 0xF0000000) ||| (target <<< 2) }
  else if opcode = 3 then
    .ok { s with gfx := draw_pixel (s.registers 1) (s.registers 2) (s.registers 3) s.gfx }
  else if opcode = 4 then
    .ok s
  else if opcode = 63 then
    .ok { s with running := false }
  else
    .error (.unknownOpcode opcode)

/-- One iteration of Kernel.run of FlamesVM64: fetch_instruction (pc += 4
after a successful read) then execute_instruction. -/
def stepF (s : KState) : Except Err KState :=
  match read_word s.mem s.pc with
  | .error e => .error e
  | .ok instruction => execute_instruction instruction { s with pc := s.pc + 4 }

/-- Kernel.run of FlamesVM64, with explicit fuel.  There is no exception
handler around the loop, so any error propagates to the caller of run. -/
def run : Nat → KState → Except Err KState
  | 0, s => .ok s
  | fuel + 1, s =>
    if s.running then
      match stepF s with
      | .error e => .error e
      | .ok s' => run fuel s'
    else .ok s

/-- The byte-store loop of Kernel.load_program of FlamesVM64. -/
def load_bytes (m : Mem) (i : Nat) : List Nat → Except Err Mem
  | [] => .ok m
  | b :: rest =>
    match write_byte m i b with
    | .error e => .error e
    | .ok m' => load_bytes m' (i + 1) rest

/-- Kernel.load_program of FlamesVM64: copy the bytes starting at address 0
and reset pc to 0. -/
def load_program (s : KState) (program : List Nat) : Except Err KState :=
  match load_bytes s.mem 0 program with
  | .error e => .error e
  | .ok m' => .ok { s with mem := m', pc := 0 }

end Flames

/-! Concrete states used by witnesses and counterexamples. -/

/-- A fresh EMAUI0.2 memory: both buffers zero, counters zero, as built by
Memory.__init__. -/
def mem0 : EMAUI.Mem :=
  { rdram := fun _ => 0, pif_rom := fun _ => 0, reads := 0, writes := 0 }

/-! C1 -/

/-- C1.  The claim says Kernel.decode_instruction is total and returns some
operation for every 32-bit word, including R-type words (opcode 0) whose
funct is neither 0x20 nor 0x22.  The code falls off the end of the method
for exactly those words and returns None: word 0x00000002 has opcode 0 and
funct 0x02 and decodes to nothing, while an unknown non-zero opcode such as
0x05 does get the deferred-error operation the claim describes.  The claim
matches the documented intent (the spec and the final else branch defer
unknown patterns to execution), so the R-type hole is a code bug. -/
theorem decode_rtype_unknown_funct_returns_none :
    EMAUI.decode_instruction 0x00000002 = none ∧
    EMAUI.decode_instruction (0x05 <<< 26) = some (.unknown 0x05) := by
  exact ⟨rfl, rfl⟩

/-! C9 -/

/-- C9.  For every address resolving to the read-only PIF ROM region,
Memory.write_byte of EMAUI0.2 bumps the writes counter by exactly one and
then raises the write-protection error, leaving both byte buffers (and the
reads counter) unchanged: the counter mutation is not rolled back. -/
theorem write_byte_pif_rom_counts_then_fails (m : EMAUI.Mem) (a v : Nat)
    (h1 : EMAUI.PIF_ROM_START ≤ a) (h2 : a ≤ EMAUI.PIF_ROM_END) :
    EMAUI.write_byte m a v =
      ({ m with writes := m.writes + 1 }, .error .writeProtected) := by
  have hra : ¬(EMAUI.RDRAM_START ≤ a ∧ a ≤ EMAUI.RDRAM_END) := by
    simp only [EMAUI.RDRAM_START, EMAUI.RDRAM_END, EMAUI.RDRAM_SIZE,
      EMAUI.PIF_ROM_START, EMAUI.PIF_ROM_END, EMAUI.PIF_ROM_SIZE] at *
    omega
  unfold EMAUI.write_byte EMAUI.map_address
  rw [if_neg hra, if_pos ⟨h1, h2⟩]

/-- Witness for C9 at the first PIF ROM address on a fresh memory. -/
theorem write_byte_pif_rom_counts_then_fails_witness :
    EMAUI.write_byte mem0 0x1FC00000 7 =
      ({ mem0 with writes := mem0.writes + 1 }, .error .writeProtected) :=
  write_byte_pif_rom_counts_then_fails mem0 0x1FC00000 7 (by decide) (by decide)

/-! C10 -/

/-- C10.  For every mapped writable address and every value, write_byte
stores value mod 256 rather than failing, in both variants: EMAUI0.2 masks
with & 0xFF before the RDRAM store, and FlamesVM64 masks with & 0xFF before
the store; a subsequent read_byte returns the low 8 bits, not the value. -/
theorem write_byte_masks_to_byte :
    (∀ (m : EMAUI.Mem) (a v : Nat), a ≤ EMAUI.RDRAM_END →
      (EMAUI.write_byte m a v).2 = .ok () ∧
      (EMAUI.read_byte (EMAUI.write_byte m a v).1 a).2 = .ok (v % 256)) ∧
    (∀ (m : Flames.Mem) (a v : Nat), a < m.size →
      ∃ m', Flames.write_byte m a v = .ok m' ∧
        Flames.read_byte m' a = .ok (v % 256)) := by
  constructor
  · intro m a v h
    have hpos : EMAUI.RDRAM_START ≤ a ∧ a ≤ EMAUI.RDRAM_END := ⟨Nat.zero_le a, h⟩
    unfold EMAUI.write_byte EMAUI.read_byte EMAUI.map_address
    rw [if_pos hpos]
    simp [EMAUI.RDRAM_START, upd]
  · intro m a v h
    refine ⟨{ m with memory := upd m.memory a (v % 256) }, ?_, ?_⟩
    · unfold Flames.write_byte
      rw [if_pos h]
    · unfold Flames.read_byte
      rw [if_pos h]
      simp [upd]

/-- Witness for C10: writing 300 at RDRAM address 5 stores 44 in EMAUI0.2,
and the same in a 16-byte FlamesVM64 memory. -/
theorem write_byte_masks_to_byte_witness :
    ((EMAUI.read_byte (EMAUI.write_byte mem0 5 300).1 5).2 = .ok 44) ∧
    (∃ m', Flames.write_byte { size := 16, memory := fun _ => 0 } 5 300 = .ok m' ∧
      Flames.read_byte m' 5 = .ok 44) :=
  ⟨(write_byte_masks_to_byte.1 mem0 5 300 (by decide)).2,
   write_byte_masks_to_byte.2 { size := 16, memory := fun _ => 0 } 5 300 (by decide)⟩

/-! C2 -/

/-- C2, counterexample to the claim as stated.  At address 0x1FC007FD (the
third-to-last PIF ROM byte) a word write does fail, but with the
write-protection MemoryError raised by the PIF ROM branch, not with the
out-of-bounds span error the claim names: the write path rejects the
read-only region before any span consideration. -/
theorem write_word_pif_tail_write_protected_cex :
    (EMAUI.write_word mem0 0x1FC007FD 0).2 = .error .writeProtected ∧
    Err.writeProtected ≠ Err.shortSpan := by
  exact ⟨rfl, by decide⟩

/-- C2, amended.  For every address that resolves to a region but whose
4-byte span crosses the region end, read_word fails with the short-span
error (struct.unpack on the clamped numpy slice) in both regions, and
write_word fails with the short-span broadcast error in RDRAM but with the
write-protection error in PIF ROM; in every case the memory contents are
left unchanged, never a truncated or wrapped span.  FlamesVM64 checks
address + 3 < size explicitly and raises its MemoryError likewise. -/
theorem word_access_cross_region_fails :
    (∀ (m : EMAUI.Mem) (a v : Nat) (r : EMAUI.Region) (off : Nat),
      EMAUI.map_address a = .ok (r, off) → EMAUI.regionSize r < off + 4 →
      (EMAUI.read_word m a).2 = .error .shortSpan ∧
      (EMAUI.write_word m a v).2 =
        .error (match r with | .rdram => .shortSpan | .pifRom => .writeProtected) ∧
      (EMAUI.write_word m a v).1.rdram = m.rdram ∧
      (EMAUI.write_word m a v).1.pif_rom = m.pif_rom) ∧
    (∀ (m : Flames.Mem) (a v : Nat), a < m.size → m.size ≤ a + 3 →
      Flames.read_word m a = .error (.invalidAccess a) ∧
      Flames.write_word m a v = .error (.invalidAccess a)) := by
  constructor
  · intro m a v r off hmap hsz
    unfold EMAUI.read_word EMAUI.write_word
    rw [hmap]
    dsimp only
    cases r with
    | rdram =>
      have hlt : ¬(off + 4 ≤ EMAUI.RDRAM_SIZE) := by
        simp only [EMAUI.regionSize] at hsz
        omega
      rw [if_neg hlt, if_neg hlt]
      exact ⟨rfl, rfl, rfl, rfl⟩
    | pifRom =>
      have hlt : ¬(off + 4 ≤ EMAUI.PIF_ROM_SIZE) := by
        simp only [EMAUI.regionSize] at hsz
        omega
      rw [if_neg hlt]
      exact ⟨rfl, rfl, rfl, rfl⟩
  · intro m a v _ h2
    have hlt : ¬(a + 3 < m.size) := by omega
    unfold Flames.read_word Flames.write_word
    rw [if_neg hlt, if_neg hlt]
    exact ⟨rfl, rfl⟩

/-- Witness for C2 at the third-to-last RDRAM address (offset 0x7FFFFD) and
at a FlamesVM64 memory of 16 bytes with address 14. -/
theorem word_access_cross_region_fails_witness :
    ((EMAUI.read_word mem0 0x7FFFFD).2 = .error .shortSpan ∧
     (EMAUI.write_word mem0 0x7FFFFD 5).2 = .error .shortSpan ∧
     (EMAUI.write_word mem0 0x7FFFFD 5).1.rdram = mem0.rdram ∧
     (EMAUI.write_word mem0 0x7FFFFD 5).1.pif_rom = mem0.pif_rom) ∧
    (Flames.read_word { size := 16, memory := fun _ => 0 } 14 = .error (.invalidAccess 14) ∧
     Flames.write_word { size := 16, memory := fun _ => 0 } 14 5 = .error (.invalidAccess 14)) :=
  ⟨word_access_cross_region_fails.1 mem0 0x7FFFFD 5 .rdram 0x7FFFFD rfl (by decide),
   word_access_cross_region_fails.2 { size := 16, memory := fun _ => 0 } 14 5
     (by decide) (by decide)⟩

/-! C5 -/

/-- C5.  For every address whose 4-byte span stays inside the writable
region and every 32-bit value, write_word then read_word returns exactly
the value, and the byte at the lowest address is the most significant 8
bits (big-endian layout), in both variants. -/
theorem write_read_word_roundtrip :
    (∀ (m : EMAUI.Mem) (a v : Nat), a + 4 ≤ EMAUI.RDRAM_SIZE → v < 2 ^ 32 →
      (EMAUI.write_word m a v).2 = .ok () ∧
      (EMAUI.read_word (EMAUI.write_word m a v).1 a).2 = .ok v ∧
      (EMAUI.read_byte (EMAUI.write_word m a v).1 a).2 = .ok (v / 2 ^ 24)) ∧
    (∀ (m : Flames.Mem) (a v : Nat), a + 3 < m.size → v < 2 ^ 32 →
      ∃ m', Flames.write_word m a v = .ok m' ∧
        Flames.read_word m' a = .ok v ∧
        Flames.read_byte m' a = .ok (v / 2 ^ 24)) := by
  constructor
  · intro m a v hspan hv
    have hpos : EMAUI.RDRAM_START ≤ a ∧ a ≤ EMAUI.RDRAM_END := by
      constructor
      · exact Nat.zero_le a
      · simp only [EMAUI.RDRAM_END, EMAUI.RDRAM_START, EMAUI.RDRAM_SIZE] at *
        omega
    unfold EMAUI.write_word EMAUI.read_word EMAUI.read_byte EMAUI.map_address
    rw [if_pos hpos]
    simp only [EMAUI.RDRAM_START, Nat.sub_zero]
    rw [if_pos hspan]
    refine ⟨rfl, ?_, ?_⟩
    · simp only [bytesToWord_storeWordBytes m.rdram a v hv]
      rw [if_pos hspan]
    · simp only [storeWordBytes_at0]
      have : v / 2 ^ 24 % 256 = v / 2 ^ 24 := by omega
      rw [this]
  · intro m a v hspan hv
    refine ⟨{ m with memory := storeWordBytes m.memory a v }, ?_, ?_, ?_⟩
    · unfold Flames.write_word
      rw [if_pos hspan]
    · unfold Flames.read_word
      rw [if_pos hspan]
      simp only [bytesToWord_storeWordBytes m.memory a v hv]
    · unfold Flames.read_byte
      have h1 : a < m.size := by omega
      rw [if_pos h1]
      simp only [storeWordBytes_at0]
      have : v / 2 ^ 24 % 256 = v / 2 ^ 24 := by omega
      rw [this]

/-- Witness for C5 with value 0xDEADBEEF at EMAUI0.2 RDRAM address 256 and
FlamesVM64 address 8 in a 16-byte memory. -/
theorem write_read_word_roundtrip_witness :
    ((EMAUI.read_word (EMAUI.write_word mem0 256 0xDEADBEEF).1 256).2 = .ok 0xDEADBEEF ∧
     (EMAUI.read_byte (EMAUI.write_word mem0 256 0xDEADBEEF).1 256).2 = .ok 0xDE) ∧
    (∃ m', Flames.write_word { size := 16, memory := fun _ => 0 } 8 0xDEADBEEF = .ok m' ∧
      Flames.read_word m' 8 = .ok 0xDEADBEEF ∧
      Flames.read_byte m' 8 = .ok 0xDE) :=
  ⟨⟨(write_read_word_roundtrip.1 mem0 256 0xDEADBEEF (by decide) (by decide)).2.1,
    (write_read_word_roundtrip.1 mem0 256 0xDEADBEEF (by decide) (by decide)).2.2⟩,
   write_read_word_roundtrip.2 { size := 16, memory := fun _ => 0 } 8 0xDEADBEEF
     (by decide) (by decide)⟩

/-! C4 -/

/-- A FlamesVM64 kernel state with an empty memory, used only as the carrier
for executing single instructions in counterexamples. -/
def fsReg (r : Nat → Nat) : Flames.KState :=
  { mem := { size := 16, memory := fun _ => 0 }, gfx := fun _ => 0,
    pc := 0, registers := r, running := true }

/-- C4, counterexample to the claim as stated.  In FlamesVM64 the R-type
branch stores registers[rs] + registers[rt] without any masking, so with
reg[1] = 0xFFFFFFFF and reg[2] = 1 the add word (rs=1, rt=2, rd=3, funct
0x20) yields reg[3] = 0x100000000, not the claimed 0.  (FlamesVM64 also
ignores funct entirely, so there is no Sub at all.) -/
theorem flames_add_unwrapped_cex :
    (Flames.execute_instruction ((1 <<< 21) ||| (2 <<< 16) ||| (3 <<< 11) ||| 0x20)
        (fsReg (fun i => if i = 1 then 0xFFFFFFFF else if i = 2 then 1 else 0))).map
      (fun s => s.registers 3) = .ok 0x100000000 ∧
    (0x100000000 : Nat) ≠ 0 := by
  exact ⟨rfl, by decide⟩

/-- C4, amended.  In EMAUI0.2 the claim holds: for every instruction word
with opcode 0 and funct 0x20 (resp. 0x22), decode resolves the Add (resp.
Sub) operation on the encoded fields and executing it stores the sum
(difference) reduced modulo 2^32 into reg[rd] without faulting.  In
FlamesVM64 the R-type branch stores the unreduced Python-integer sum and
implements no Sub. -/
theorem add_sub_wrap32 :
    (∀ (w : Nat) (s : EMAUI.KState) (rd rs rt : Nat),
      w >>> 26 = 0 → w &&& 0x3F = 0x20 →
      rd = (w >>> 11) &&& 0x1F → rs = (w >>> 21) &&& 0x1F → rt = (w >>> 16) &&& 0x1F →
      EMAUI.decode_instruction w = some (.add rd rs rt) ∧
      (EMAUI.execute (.add rd rs rt) s).2 = none ∧
      (EMAUI.execute (.add rd rs rt) s).1.registers rd =
        (s.registers rs + s.registers rt) % 2 ^ 32) ∧
    (∀ (w : Nat) (s : EMAUI.KState) (rd rs rt : Nat),
      w >>> 26 = 0 → w &&& 0x3F = 0x22 →
      rd = (w >>> 11) &&& 0x1F → rs = (w >>> 21) &&& 0x1F → rt = (w >>> 16) &&& 0x1F →
      EMAUI.decode_instruction w = some (.sub rd rs rt) ∧
      (EMAUI.execute (.sub rd rs rt) s).2 = none ∧
      (EMAUI.execute (.sub rd rs rt) s).1.registers rd =
        EMAUI.wrap32Int ((s.registers rs : Int) - (s.registers rt : Int))) := by
  constructor
  · intro w s rd rs rt hop hfn hrd hrs hrt
    subst hrd hrs hrt
    refine ⟨?_, rfl, ?_⟩
    · simp [EMAUI.decode_instruction, hop, hfn]
    · simp [EMAUI.execute, upd_same]
  · intro w s rd rs rt hop hfn hrd hrs hrt
    subst hrd hrs hrt
    refine ⟨?_, rfl, ?_⟩
    · simp [EMAUI.decode_instruction, hop, hfn]
    · simp [EMAUI.execute, upd_same]

/-- An EMAUI0.2 kernel state over a fresh memory with a given register file,
used as the carrier for executing single operations in witnesses. -/
def esReg (r : Nat → Nat) : EMAUI.KState :=
  { mem := mem0, gfx := fun _ _ => 0, pc := 0, registers := r,
    running := true, cycles := 0 }

/-- Witness for C4: the claim's two concrete examples hold in EMAUI0.2.
With reg[1]=100 and reg[2]=200, Add(rd=3,rs=1,rt=2) yields reg[3]=300;
with reg[1]=0xFFFFFFFF and reg[2]=1 it yields reg[3]=0; Sub on the wrapped
case yields 0xFFFFFFFE. -/
theorem add_sub_wrap32_witness :
    (EMAUI.execute (.add 3 1 2)
      (esReg (fun i => if i = 1 then 100 else if i = 2 then 200 else 0))).1.registers 3
      = 300 ∧
    (EMAUI.execute (.add 3 1 2)
      (esReg (fun i => if i = 1 then 0xFFFFFFFF else if i = 2 then 1 else 0))).1.registers 3
      = 0 ∧
    (EMAUI.execute (.sub 3 1 2)
      (esReg (fun i => if i = 2 then 0xFFFFFFFF else if i = 1 then 1 else 0))).1.registers 3
      = 2 := by
  have wadd : (1 <<< 21) ||| (2 <<< 16) ||| (3 <<< 11) ||| 0x20 = 0x221820 := by decide
  refine ⟨?_, ?_, ?_⟩
  · rw [(add_sub_wrap32.1 0x221820
      (esReg (fun i => if i = 1 then 100 else if i = 2 then 200 else 0))
      3 1 2 (by decide) (by decide) (by decide) (by decide) (by decide)).2.2]
    decide
  · rw [(add_sub_wrap32.1 0x221820
      (esReg (fun i => if i = 1 then 0xFFFFFFFF else if i = 2 then 1 else 0))
      3 1 2 (by decide) (by decide) (by decide) (by decide) (by decide)).2.2]
    decide
  · rw [(add_sub_wrap32.2 0x221822
      (esReg (fun i => if i = 2 then 0xFFFFFFFF else if i = 1 then 1 else 0))
      3 1 2 (by decide) (by decide) (by decide) (by decide) (by decide)).2.2]
    decide

/-! C6 -/

/-- C6, counterexample to the claim as stated.  FlamesVM64's immediate
opcode (1) performs registers[rs] += imm with the zero-extended 16-bit
immediate and no masking: executing word (1 << 26) | (1 << 21) | 0x8000 on
an all-zero register file stores 0x8000 into reg[1] (the rs field) and
leaves reg[0] (the rt field of the claim's formula) at 0, whereas the
claimed semantics would store sign_extend16(0x8000) mod 2^32 = 0xFFFF8000
into reg[rt]. -/
theorem flames_imm_add_no_sign_extend_cex :
    (Flames.execute_instruction ((1 <<< 26) ||| (1 <<< 21) ||| 0x8000)
        (fsReg (fun _ => 0))).map (fun s => (s.registers 0, s.registers 1))
      = .ok (0, 0x8000) ∧
    EMAUI.wrap32Int ((0 : Int) + EMAUI.sign_extend16 0x8000) = 0xFFFF8000 ∧
    (0x8000 : Nat) ≠ 0xFFFF8000 ∧ (0 : Nat) ≠ 0xFFFF8000 := by
  refine ⟨rfl, ?_, by decide, by decide⟩
  decide

/-- C6, amended.  In EMAUI0.2 the claim holds: decoding an opcode-0x08 word
applies sign_extend16 to the low 16 bits (imm - 0x10000 exactly when bit 15
is set) and executing the operation stores (reg[rs] + sign_extend16(imm16))
mod 2^32 into reg[rt]; sign_extend16 0x8000 = -32768 (0xFFFF8000 as 32 bits)
and sign_extend16 0x7FFF = 0x7FFF.  FlamesVM64's immediate opcode instead
adds the zero-extended immediate to reg[rs] in place without masking. -/
theorem addi_sign_extend32 :
    (∀ (w : Nat) (s : EMAUI.KState) (rt rs : Nat),
      w >>> 26 = 0x08 →
      rt = (w >>> 16) &&& 0x1F → rs = (w >>> 21) &&& 0x1F →
      EMAUI.decode_instruction w =
        some (.addi rt rs (EMAUI.sign_extend16 (w &&& 0xFFFF))) ∧
      (EMAUI.execute (.addi rt rs (EMAUI.sign_extend16 (w &&& 0xFFFF))) s).2 = none ∧
      (EMAUI.execute (.addi rt rs (EMAUI.sign_extend16 (w &&& 0xFFFF))) s).1.registers rt =
        (((s.registers rs : Int) + EMAUI.sign_extend16 (w &&& 0xFFFF)) % 2 ^ 32).toNat) ∧
    EMAUI.sign_extend16 0x8000 = -32768 ∧
    ((EMAUI.sign_extend16 0x8000) % 2 ^ 32 : Int) = 0xFFFF8000 ∧
    EMAUI.sign_extend16 0x7FFF = 0x7FFF := by
  refine ⟨?_, by decide, by decide, by decide⟩
  intro w s rt rs hop hrt hrs
  subst hrt hrs
  refine ⟨?_, rfl, ?_⟩
  · have h0 : ¬(w >>> 26 = 0) := by omega
    simp [EMAUI.decode_instruction, hop, h0]
  · simp [EMAUI.execute, EMAUI.wrap32Int, upd_same]

/-- Witness for C6: executing ADDI with imm16 = 0x8000 on reg[1] = 100
stores (100 - 32768) mod 2^32 = 0xFFFF8064 into reg[2]; with imm16 = 0x7FFF
it stores 100 + 32767 = 32867. -/
theorem addi_sign_extend32_witness :
    (EMAUI.execute (.addi 2 1 (EMAUI.sign_extend16 0x8000))
      (esReg (fun i => if i = 1 then 100 else 0))).1.registers 2 = 0xFFFF8064 ∧
    (EMAUI.execute (.addi 2 1 (EMAUI.sign_extend16 0x7FFF))
      (esReg (fun i => if i = 1 then 100 else 0))).1.registers 2 = 32867 := by
  constructor
  · have h := (addi_sign_extend32.1 ((0x08 <<< 26) ||| (1 <<< 21) ||| (2 <<< 16) ||| 0x8000)
      (esReg (fun i => if i = 1 then 100 else 0)) 2 1
      (by decide) (by decide) (by decide)).2.2
    have hw : ((0x08 <<< 26) ||| (1 <<< 21) ||| (2 <<< 16) ||| 0x8000) &&& 0xFFFF = 0x8000 := by
      decide
    rw [hw] at h
    rw [h]
    decide
  · have h := (addi_sign_extend32.1 ((0x08 <<< 26) ||| (1 <<< 21) ||| (2 <<< 16) ||| 0x7FFF)
      (esReg (fun i => if i = 1 then 100 else 0)) 2 1
      (by decide) (by decide) (by decide)).2.2
    have hw : ((0x08 <<< 26) ||| (1 <<< 21) ||| (2 <<< 16) ||| 0x7FFF) &&& 0xFFFF = 0x7FFF := by
      decide
    rw [hw] at h
    rw [h]
    decide

/-! C8 -/

/-- Pointwise description of Graphics.draw_rectangle of EMAUI0.2 when the
uint32 sums x + w and y + h do not wrap: exactly the cells in the
intersection of the rectangle with the 640 x 480 framebuffer take the
(16-bit truncated) color, every other cell keeps its prior value. -/
theorem draw_rectangle_spec (x y w h c : Nat) (fb : Nat → Nat → Nat) (row col : Nat)
    (hx : x + w < 2 ^ 32) (hy : y + h < 2 ^ 32) :
    EMAUI.draw_rectangle x y w h c fb row col =
      (if x ≤ col ∧ col < x + w ∧ col < 640 ∧ y ≤ row ∧ row < y + h ∧ row < 480
       then c % 2 ^ 16 else fb row col) := by
  unfold EMAUI.draw_rectangle
  rw [Nat.mod_eq_of_lt hx, Nat.mod_eq_of_lt hy]
  simp only [EMAUI.fbWidth, EMAUI.fbHeight, Nat.zero_max]
  rcases Decidable.em (x ≤ col ∧ col < x + w ∧ col < 640 ∧
      y ≤ row ∧ row < y + h ∧ row < 480) with hC | hC
  · rw [if_pos hC, if_pos (show x < min 640 (x + w) ∧ y < min 480 (y + h) by omega)]
    exact if_pos (by omega)
  · rw [if_neg hC]
    by_cases hA : x < min 640 (x + w) ∧ y < min 480 (y + h)
    · rw [if_pos hA]
      exact if_neg (by omega)
    · rw [if_neg hA]

/-- C8, counterexample to the claim as stated.  With x = 2, y = 0,
w = 0xFFFFFFFF, h = 1, color = 7 in registers 1..5, the cell (col 2, row 0)
lies in the intersection of [2, 2+w) x [0, 1) with the 640 x 480 bounds, so
the claim says it reads 7 after DrawRectangle; but x + w wraps to 1 in the
uint32 register arithmetic, the clipped rectangle is empty, and the cell
still reads the prior 0. -/
theorem draw_rectangle_wraparound_cex :
    ((2 : Nat) ≤ 2 ∧ 2 < 2 + 0xFFFFFFFF ∧ 2 < 640 ∧
     (0 : Nat) ≤ 0 ∧ 0 < 0 + 1 ∧ 0 < 480) ∧
    (EMAUI.execute .drawRect (esReg (fun i =>
      if i = 1 then 2 else if i = 3 then 0xFFFFFFFF else
      if i = 4 then 1 else if i = 5 then 7 else 0))).1.gfx 0 2 = 0 ∧
    (0 : Nat) ≠ 7 := by
  exact ⟨by decide, rfl, by decide⟩

/-- C8, amended.  Provided the uint32 sums x + w and y + h do not wrap
modulo 2^32, executing DrawRectangle (operands in registers 1 to 5) never
faults and writes color mod 2^16 (the framebuffer stores 16-bit values) to
exactly the cells in the intersection of [x, x+w) x [y, y+h) with
[0, 640) x [0, 480), leaving every other cell at its prior value.  When a
sum wraps, the wrapped value is used as the clip limit, so a huge rectangle
can clip to nothing. -/
theorem draw_rectangle_clipped_update (s : EMAUI.KState) (row col : Nat)
    (hx : s.registers 1 + s.registers 3 < 2 ^ 32)
    (hy : s.registers 2 + s.registers 4 < 2 ^ 32) :
    (EMAUI.execute .drawRect s).2 = none ∧
    (EMAUI.execute .drawRect s).1.gfx row col =
      (if s.registers 1 ≤ col ∧ col < s.registers 1 + s.registers 3 ∧ col < 640 ∧
          s.registers 2 ≤ row ∧ row < s.registers 2 + s.registers 4 ∧ row < 480
       then s.registers 5 % 2 ^ 16 else s.gfx row col) :=
  ⟨rfl, draw_rectangle_spec (s.registers 1) (s.registers 2) (s.registers 3)
    (s.registers 4) (s.registers 5) s.gfx row col hx hy⟩

/-- Witness for C8 on the claim's example: DrawRectangle(x=100, y=200,
w=150, h=10, color=0x1F) makes cell (col 150, row 205) read 0x1F and leaves
cell (0, 0) at the prior background 0. -/
theorem draw_rectangle_clipped_update_witness :
    (EMAUI.execute .drawRect (esReg (fun i =>
      if i = 1 then 100 else if i = 2 then 200 else if i = 3 then 150 else
      if i = 4 then 10 else if i = 5 then 0x1F else 0))).1.gfx 205 150 = 0x1F ∧
    (EMAUI.execute .drawRect (esReg (fun i =>
      if i = 1 then 100 else if i = 2 then 200 else if i = 3 then 150 else
      if i = 4 then 10 else if i = 5 then 0x1F else 0))).1.gfx 0 0 = 0 := by
  constructor
  · rw [(draw_rectangle_clipped_update (esReg (fun i =>
      if i = 1 then 100 else if i = 2 then 200 else if i = 3 then 150 else
      if i = 4 then 10 else if i = 5 then 0x1F else 0)) 205 150
      (by decide) (by decide)).2]
    decide
  · rw [(draw_rectangle_clipped_update (esReg (fun i =>
      if i = 1 then 100 else if i = 2 then 200 else if i = 3 then 150 else
      if i = 4 then 10 else if i = 5 then 0x1F else 0)) 0 0
      (by decide) (by decide)).2]
    decide

/-! C3 -/

/-- C3, counterexample to the claim as stated.  Kernel.run of FlamesVM64
has no exception handler: loading the single-instruction program whose word
is 0x14000000 (opcode 5, unknown) and calling run makes the ValueError
escape run itself (modelled by run returning the error instead of a final
machine state), so the caller does not merely observe a terminal state. -/
theorem flames_run_propagates_unknown_opcode_cex :
    (Flames.load_program
        { mem := { size := 16, memory := fun _ => 0 }, gfx := fun _ => 0,
          pc := 0, registers := fun _ => 0, running := true }
        [0x14, 0x00, 0x00, 0x00]).bind (Flames.run 4) =
      .error (.unknownOpcode 5) := rfl

/-- C3, amended.  In EMAUI0.2 the claim holds: once the running flag is
cleared run executes nothing and returns the state unchanged, and whenever
run reports a caught error the returned terminal state is no longer
running (the try/except confines every decode/execute/memory error, so the
caller observes only the final state and reason).  FlamesVM64 equally
executes nothing once non-running, but its run has no handler, so an error
propagates out of run instead of producing a terminal state. -/
theorem run_terminal_state_contained :
    (∀ (n : Nat) (s : EMAUI.KState), s.running = false →
      EMAUI.run n s = (s, none)) ∧
    (∀ (n : Nat) (s s' : EMAUI.KState) (e : Err),
      EMAUI.run n s = (s', some e) → s'.running = false) ∧
    (∀ (n : Nat) (s : Flames.KState), s.running = false →
      Flames.run n s = .ok s) := by
  refine ⟨?_, ?_, ?_⟩
  · intro n s h
    cases n with
    | zero => rfl
    | succ k => simp [EMAUI.run, h]
  · intro n
    induction n with
    | zero =>
      intro s s' e h
      simp [EMAUI.run] at h
    | succ k ih =>
      intro s s' e h
      by_cases hr : s.running
      · rw [EMAUI.run, if_pos hr] at h
        rcases hstep : EMAUI.stepE s with ⟨s2, e2⟩
        rw [hstep] at h
        cases e2 with
        | none => exact ih s2 s' e h
        | some e3 =>
          have h2 := congrArg (fun p => p.1.running) h
          simp at h2
          rw [← h2]
      · rw [EMAUI.run, if_neg hr] at h
        exact Option.noConfusion (congrArg Prod.snd h)
  · intro n s h
    cases n with
    | zero => rfl
    | succ k => simp [Flames.run, h]

/-- Witness for C3: a halted EMAUI0.2 machine is returned unchanged by run;
running the all-zero program for one step reports the decode TypeError and
leaves the machine not running; a halted FlamesVM64 machine is returned
unchanged. -/
theorem run_terminal_state_contained_witness :
    (EMAUI.run 3 { esReg (fun _ => 0) with running := false } =
      ({ esReg (fun _ => 0) with running := false }, none)) ∧
    ((EMAUI.run 1 (esReg (fun _ => 0))).1.running = false) ∧
    (Flames.run 2
        { mem := { size := 16, memory := fun _ => 0 }, gfx := fun _ => 0,
          pc := 0, registers := fun _ => 0, running := false } =
      .ok { mem := { size := 16, memory := fun _ => 0 }, gfx := fun _ => 0,
            pc := 0, registers := fun _ => 0, running := false }) :=
  ⟨run_terminal_state_contained.1 3 { esReg (fun _ => 0) with running := false } rfl,
   run_terminal_state_contained.2.1 1 (esReg (fun _ => 0))
     (EMAUI.run 1 (esReg (fun _ => 0))).1 Err.noneNotCallable rfl,
   run_terminal_state_contained.2.2 2
     { mem := { size := 16, memory := fun _ => 0 }, gfx := fun _ => 0,
       pc := 0, registers := fun _ => 0, running := false } rfl⟩

/-! C7 -/

/-- States reachable by Kernel.run of FlamesVM64 while the machine runs
normally: reflexive closure of successful (non-raising) fetch-execute
steps taken with the running flag set. -/
inductive FReach : Flames.KState → Flames.KState → Prop where
  | refl (s : Flames.KState) : FReach s s
  | step (a b c : Flames.KState) : FReach a b → b.running = true →
      Flames.stepF b = .ok c → FReach a c

/-- States reachable by Kernel.run of EMAUI0.2 while the machine runs
normally (no exception caught). -/
inductive EReach : EMAUI.KState → EMAUI.KState → Prop where
  | refl (s : EMAUI.KState) : EReach s s
  | step (a b c : EMAUI.KState) : EReach a b → b.running = true →
      EMAUI.stepE b = (c, none) → EReach a c

/-- The jump target (pc AND 0xF0000000) OR (target shifted left by 2) is
always a multiple of 4. -/
theorem jump_target_mod4 (pc target : Nat) :
    ((pc &&& 0xF0000000) ||| (target <<< 2)) % 4 = 0 := by
  have h := Nat.and_pow_two_sub_one_eq_mod ((pc &&& 0xF0000000) ||| (target <<< 2)) 2
  norm_num at h
  rw [← h, Nat.and_distrib_right, Nat.and_assoc]
  have e1 : (0xF0000000 : Nat) &&& 3 = 0 := by decide
  rw [e1, Nat.and_zero]
  have h2 := Nat.and_pow_two_sub_one_eq_mod (target <<< 2) 2
  norm_num at h2
  have e2 : (target <<< 2) &&& 3 = 0 := by
    rw [h2, Nat.shiftLeft_eq]
    norm_num [Nat.mul_mod_left]
  rw [e2]
  decide

theorem execute_instruction_pc_mod4 (instr : Nat) (s c : Flames.KState)
    (h : Flames.execute_instruction instr s = .ok c) (hp : s.pc % 4 = 0) :
    c.pc % 4 = 0 := by
  unfold Flames.execute_instruction at h
  dsimp only at h
  repeat' split at h
  all_goals first
    | exact Except.noConfusion h
    | (injection h with h2; subst h2;
        first
          | exact hp
          | exact jump_target_mod4 s.pc (instr &&& 0x3FFFFFF))

theorem stepF_pc_mod4 (b c : Flames.KState)
    (h : Flames.stepF b = .ok c) (hp : b.pc % 4 = 0) : c.pc % 4 = 0 := by
  unfold Flames.stepF at h
  cases hrw : Flames.read_word b.mem b.pc with
  | error e =>
    rw [hrw] at h
    exact Except.noConfusion h
  | ok instr =>
    rw [hrw] at h
    exact execute_instruction_pc_mod4 instr _ c h (show (b.pc + 4) % 4 = 0 by omega)

theorem execute_pc_eq (op : EMAUI.DecodedOp) (s : EMAUI.KState) :
    (EMAUI.execute op s).1.pc = s.pc := by
  cases op <;> rfl

theorem executeE_pair_pc (op : EMAUI.DecodedOp) (s c : EMAUI.KState)
    (e : Option Err) (h : EMAUI.execute op s = (c, e)) : c.pc = s.pc := by
  have h1 : (EMAUI.execute op s).1.pc = c.pc := congrArg (fun p => p.1.pc) h
  rw [execute_pc_eq] at h1
  exact h1.symm

theorem stepE_pc_mod4 (b c : EMAUI.KState)
    (h : EMAUI.stepE b = (c, none)) (hp : b.pc % 4 = 0) : c.pc % 4 = 0 := by
  unfold EMAUI.stepE at h
  rcases hrw : EMAUI.read_word b.mem b.pc with ⟨m', r⟩
  cases r with
  | error e =>
    simp only [hrw] at h
    exact Option.noConfusion (congrArg Prod.snd h)
  | ok instr =>
    simp only [hrw] at h
    cases hdec : EMAUI.decode_instruction instr with
    | none =>
      simp only [hdec] at h
      exact Option.noConfusion (congrArg Prod.snd h)
    | some op =>
      simp only [hdec] at h
      have h2 := executeE_pair_pc op _ c none h
      rw [h2]
      show (b.pc + 4) % 4 = 0
      omega

/-- C7.  In both variants, if the program counter is a multiple of 4 (as it
is at 0 after program load) then it is a multiple of 4 in every state
reachable while the machine runs normally: each fetch advances pc by
exactly 4, and the FlamesVM64 jump combines (advanced pc AND 0xF0000000)
with the 26-bit target shifted left by 2, which preserves the invariant. -/
theorem pc_multiple_of_four_invariant :
    (∀ s s' : Flames.KState, FReach s s' → s.pc % 4 = 0 → s'.pc % 4 = 0) ∧
    (∀ s s' : EMAUI.KState, EReach s s' → s.pc % 4 = 0 → s'.pc % 4 = 0) := by
  constructor
  · intro s s' hr h0
    induction hr with
    | refl => exact h0
    | step b c hab hrun hstep ih => exact stepF_pc_mod4 b c hstep ih
  · intro s s' hr h0
    induction hr with
    | refl => exact h0
    | step b c hab hrun hstep ih => exact stepE_pc_mod4 b c hstep ih

/-- A FlamesVM64 state whose memory holds the single jump word 0x08000003
(opcode 2, target 3). -/
def fs4 : Flames.KState :=
  { mem := { size := 16, memory := fun a => if a = 0 then 0x08 else if a = 3 then 3 else 0 },
    gfx := fun _ => 0, pc := 0, registers := fun _ => 0, running := true }

/-- An EMAUI0.2 state whose memory holds the single halt word 0xFC000000. -/
def es4 : EMAUI.KState :=
  { mem := { rdram := fun a => if a = 0 then 0xFC else 0, pif_rom := fun _ => 0,
             reads := 0, writes := 0 },
    gfx := fun _ _ => 0, pc := 0, registers := fun _ => 0, running := true, cycles := 0 }

/-- Witness for C7: one FlamesVM64 step through the jump lands on pc = 12,
a multiple of 4, and one EMAUI0.2 step through halt lands on pc = 4. -/
theorem pc_multiple_of_four_invariant_witness :
    ({ fs4 with pc := 12 } : Flames.KState).pc % 4 = 0 ∧
    ((EMAUI.stepE es4).1.pc % 4 = 0) :=
  ⟨pc_multiple_of_four_invariant.1 fs4 { fs4 with pc := 12 }
    (FReach.step fs4 fs4 { fs4 with pc := 12 } (FReach.refl fs4) rfl rfl) rfl,
   pc_multiple_of_four_invariant.2 es4 (EMAUI.stepE es4).1
    (EReach.step es4 es4 (EMAUI.stepE es4).1 (EReach.refl es4) rfl rfl) rfl⟩
